import Mathlib

/-!
Verification development for the contest-scraper pipeline in
`bot_concursos.py`.  The script polls a listing page, extracts contest
records from HTML containers, deduplicates them against a persisted JSON
file, prunes expired entries and notifies about new ones.

The shallow embedding below translates the pure core of the script:

* `parse_date`, `parse_salary`, `parse_vacancies`, `find_official_link` —
  the field parsers (source lines 45–95), including the behaviour of the
  specific regular expressions they use;
* `extract_contests` / `processContainer` — the per-container record
  extraction loop (lines 111–148); the container locator itself runs on a
  `BeautifulSoup` document and is modelled by the `Container` inputs it
  yields (href/text pairs of the anchors, the container text and the
  immediate parent's text);
* `load_data`, `prune` (the cleaning loop of `main`), `build_persisted_item`
  and `runMain` — the reconciliation/persistence pipeline of `main`
  (lines 29–37 and 263–301); `datetime.fromisoformat`, which the cleaning
  loop applies to persisted `end_date` strings, is ported in full from the
  CPython 3.11 C implementation (`fromIso` and its helpers).

Python exceptions are modelled with `Except PyErr`; JSON values with
`JValue`; `datetime.date` with the lexicographically ordered `Date` triple.
-/

/-- Calendar date, as Python's `datetime.date`: a (year, month, day) triple
compared lexicographically. -/
structure Date where
  year : Nat
  month : Nat
  day : Nat
  deriving DecidableEq, Repr

/-- Lexicographic `<=` on dates, matching `datetime.date.__le__`. -/
def Date.ble (a b : Date) : Bool :=
  decide (a.year < b.year ∨ (a.year = b.year ∧
    (a.month < b.month ∨ (a.month = b.month ∧ a.day ≤ b.day))))

/-- Lexicographic `<` on dates, matching `datetime.date.__lt__`. -/
def Date.blt (a b : Date) : Bool := !(Date.ble b a)

/-- Gregorian leap-year test, as `calendar.isleap` / `datetime`. -/
def isLeap (y : Nat) : Bool := y % 4 == 0 && (y % 100 != 0 || y % 400 == 0)

/-- Number of days in a month, as validated by `datetime.date`. -/
def daysInMonth (y m : Nat) : Nat :=
  if m == 2 then (if isLeap y then 29 else 28)
  else if m == 4 || m == 6 || m == 9 || m == 11 then 30
  else 31

/-- The (year, month, day) combinations `datetime.date` accepts. -/
def dateValid (d : Date) : Bool :=
  1 ≤ d.year && d.year ≤ 9999 && 1 ≤ d.month && d.month ≤ 12 &&
    1 ≤ d.day && d.day ≤ daysInMonth d.year d.month

/-- Date construction with validation: `some` on the combinations
`datetime` accepts, `none` where it raises `ValueError`. -/
def mkValidDate (d m y : Nat) : Option Date :=
  if dateValid ⟨y, m, d⟩ then some ⟨y, m, d⟩ else none

/-- The previous calendar day (used only to state the boundary claim about
"a deadline one day in the past"). -/
def prevDay (d : Date) : Date :=
  if 2 ≤ d.day then ⟨d.year, d.month, d.day - 1⟩
  else if 2 ≤ d.month then ⟨d.year, d.month - 1, daysInMonth d.year (d.month - 1)⟩
  else ⟨d.year - 1, 12, 31⟩

/-- Lower-casing as used by `re.IGNORECASE` matching, for the character
repertoire appearing in the script's patterns and pages (ASCII plus the
upper-case accented Latin letters of Portuguese). -/
def lowerChar (c : Char) : Char :=
  if 'A' ≤ c ∧ c ≤ 'Z' then Char.ofNat (c.toNat + 32)
  else match c with
    | 'Á' => 'á' | 'Â' => 'â' | 'Ã' => 'ã' | 'À' => 'à'
    | 'Ç' => 'ç' | 'É' => 'é' | 'Ê' => 'ê' | 'Í' => 'í'
    | 'Ó' => 'ó' | 'Ô' => 'ô' | 'Õ' => 'õ' | 'Ú' => 'ú'
    | other => other

/-- Whitespace class of the regex `\s` (ASCII repertoire). -/
def pySpace (c : Char) : Bool :=
  c == ' ' || c == '\t' || c == '\n' || c == '\r' || c == '\x0b' || c == '\x0c'

/-- Word-character class backing the regex `\b` boundary; non-ASCII
characters (accented letters in this corpus) count as word characters, as
under Python's Unicode semantics for letters. -/
def pyWord (c : Char) : Bool := c.isAlphanum || c == '_' || decide (c.toNat ≥ 128)

/-- Decimal digits to the number they denote, as `int(...)` on a digit
string. -/
def digitsToNat (cs : List Char) : Nat :=
  cs.foldl (fun a c => a * 10 + (c.toNat - 48)) 0

/-- Reads a leading `\d{2}/\d{2}/\d{4}` group, returning (day, month, year). -/
def takeDate10 : List Char → Option (Nat × Nat × Nat)
  | d1 :: d2 :: s1 :: m1 :: m2 :: s2 :: y1 :: y2 :: y3 :: y4 :: _ =>
    if d1.isDigit && d2.isDigit && s1 == '/' && m1.isDigit && m2.isDigit &&
        s2 == '/' && y1.isDigit && y2.isDigit && y3.isDigit && y4.isDigit then
      some (digitsToNat [d1, d2], digitsToNat [m1, m2], digitsToNat [y1, y2, y3, y4])
    else none
  | _ => none

/-- Right-hand `\b` boundary: end of input or a non-word character. -/
def boundaryOk : List Char → Bool
  | [] => true
  | c :: _ => !pyWord c

/-- Leftmost match of `DATE_PATTERN = \b\d{2}/\d{2}/\d{4}\b` (line 18);
`prev` is the character before the current position, for the left
boundary. -/
def datePatternSearch : Option Char → List Char → Option (Nat × Nat × Nat)
  | _, [] => none
  | prev, c :: rest =>
    let hereOk := match prev with
      | none => true
      | some p => !pyWord p
    match (if hereOk then takeDate10 (c :: rest) else none) with
    | some dmy =>
      if boundaryOk ((c :: rest).drop 10) then some dmy
      else datePatternSearch (some c) rest
    | none => datePatternSearch (some c) rest

/-- Case-insensitive "pattern matches here" test. -/
def ciPrefixAt (pat l : List Char) : Bool :=
  (pat.map lowerChar).isPrefixOf (l.map lowerChar)

/-- Case-insensitive substring search, as `re.search(literal, text,
re.IGNORECASE)` on a literal pattern. -/
def ciFind (pat : List Char) : List Char → Bool
  | [] => ciPrefixAt pat []
  | c :: rest => ciPrefixAt pat (c :: rest) || ciFind pat rest

/-- The label literal of the preferred date pattern (line 48). -/
def inscLit : List Char := "Inscrições até".data

/-- Leftmost match of `Inscrições até\s*(\d{2}/\d{2}/\d{4})` (IGNORECASE),
returning the captured (day, month, year). -/
def inscSearch : List Char → Option (Nat × Nat × Nat)
  | [] => none
  | c :: rest =>
    match (if ciPrefixAt inscLit (c :: rest) then
        takeDate10 (((c :: rest).drop inscLit.length).dropWhile pySpace)
      else none) with
    | some dmy => some dmy
    | none => inscSearch rest

/-- Source `parse_date` (lines 45–60): prefer a date following "Inscrições até",
fall back to the first bounded `DD/MM/YYYY`, validate via
`datetime.strptime(..., "%d/%m/%Y")`. -/
def parse_date (s : String) : Option Date :=
  let l := s.data
  let labeled := if ciFind inscLit l then inscSearch l else none
  let dmy := match labeled with
    | some r => some r
    | none => datePatternSearch none l
  match dmy with
  | none => none
  | some (d, m, y) => mkValidDate d m y

/-- Character class `[\d\.]` of `SALARY_PATTERN`. -/
def isDigitDot (c : Char) : Bool := c.isDigit || c == '.'

/-- Does `,\d{2}` match here? -/
def commaDD : List Char → Bool
  | ',' :: a :: b :: _ => a.isDigit && b.isDigit
  | _ => false

/-- Largest `k ≤ bound`, `k ≥ 1`, such that `,\d{2}` matches after the
first `k` characters of `rem` — the backtracking of the greedy `[\d\.]+`
in `SALARY_PATTERN`. -/
def findK : Nat → List Char → Option Nat
  | 0, _ => none
  | k + 1, rem =>
    if commaDD (rem.drop (k + 1)) then some (k + 1) else findK k rem

/-- Matches `\s*[\d\.]+,\d{2}` at the start of `tail` (the part of
`SALARY_PATTERN` after the literal `R$`), returning the matched text. -/
def salaryTail (tail : List Char) : Option (List Char) :=
  let ws := tail.takeWhile pySpace
  let rem := tail.dropWhile pySpace
  let run := rem.takeWhile isDigitDot
  match findK run.length rem with
  | none => none
  | some k =>
    match rem.drop k with
    | ',' :: a :: b :: _ => some (ws ++ rem.take k ++ [',', a, b])
    | _ => none

/-- Attempts `SALARY_PATTERN = R\$\s*[\d\.]+,\d{2}` at this position. -/
def trySalaryAt (l : List Char) : Option (List Char) :=
  match l with
  | 'R' :: '$' :: tail =>
    match salaryTail tail with
    | some m => some ('R' :: '$' :: m)
    | none => none
  | _ => none

/-- Leftmost match of `SALARY_PATTERN` (line 19). -/
def salarySearch : List Char → Option (List Char)
  | [] => none
  | c :: rest =>
    match trySalaryAt (c :: rest) with
    | some m => some m
    | none => salarySearch rest

/-- Python `float(...)` on the decimal strings produced by the salary
normalisation (digits with at most one dot); the value is kept as the
exact fraction (numerator, positive power-of-ten denominator) it denotes,
viewed in `ℚ` through `ratOfFrac`. -/
def pyFloat (l : List Char) : Option (Nat × Nat) :=
  let intPart := l.takeWhile (fun c => c != '.')
  let rest := l.drop intPart.length
  match rest with
  | [] =>
    if !intPart.isEmpty && intPart.all Char.isDigit then
      some (digitsToNat intPart, 1) else none
  | '.' :: frac =>
    if intPart.all Char.isDigit && frac.all Char.isDigit &&
        (!intPart.isEmpty || !frac.isEmpty) then
      some (digitsToNat intPart * 10 ^ frac.length + digitsToNat frac, 10 ^ frac.length)
    else none
  | _ => none

/-- The rational number a `pyFloat` fraction denotes. -/
def ratOfFrac (p : Nat × Nat) : ℚ := (p.1 : ℚ) / (p.2 : ℚ)

/-- Source `parse_salary` (lines 63–72): match `SALARY_PATTERN`, keep the matched
text, and normalise it (strip `R$`, drop thousands dots, decimal comma to
dot, strip spaces) into a number. -/
def parse_salary (s : String) : Option String × Option (Nat × Nat) :=
  match salarySearch s.data with
  | none => (none, none)
  | some m =>
    let normalized := ((m.drop 2).filter (fun c => c != '.')).map
      (fun c => if c == ',' then '.' else c)
    let stripped := ((normalized.dropWhile pySpace).reverse.dropWhile pySpace).reverse
    (some (String.mk m), pyFloat stripped)

/-- The literal of `VACANCY_PATTERN` (trailing `s?` does not affect the
captured group). -/
def vagaLit : List Char := "vaga".data

/-- Leftmost match of `VACANCY_PATTERN = (\d+)\s+vagas?` (IGNORECASE),
returning the captured digit group's value. -/
def vacancySearch : List Char → Option Nat
  | [] => none
  | c :: rest =>
    if c.isDigit then
      let ds := (c :: rest).takeWhile Char.isDigit
      let after := (c :: rest).drop ds.length
      let ws := after.takeWhile pySpace
      if !ws.isEmpty && ciPrefixAt vagaLit (after.drop ws.length) then
        some (digitsToNat ds)
      else vacancySearch rest
    else vacancySearch rest

/-- Source `parse_vacancies` (lines 75–82). -/
def parse_vacancies (s : String) : Option Nat := vacancySearch s.data

/-- An HTML container as handed to the extraction loop by the container
locator (`soup.select`, lines 100–110, outside the embedding): the
`(href, text)` pairs of its anchors carrying an `href` (in document
order; `find` takes the head, `find_all` the whole list), its own
`get_text(" ", strip=True)` text, and its immediate parent's text (`""`
when it has no parent, line 120). -/
structure Container where
  anchors : List (String × String)
  text : String
  parentText : String

/-- One extracted contest record (the dict built in lines 138–147). -/
structure Record where
  title : String
  link : String
  official_link : Option String
  end_date : Date
  vacancies : Option Nat
  salary_text : Option String
  salary_value : Option (Nat × Nat)
  raw_text : String
  deriving DecidableEq, Repr

/-- Case-sensitive substring test, Python's `in` on strings. -/
def subFind (pat : List Char) : List Char → Bool
  | [] => pat.isPrefixOf []
  | c :: rest => pat.isPrefixOf (c :: rest) || subFind pat rest

def urlLitS : List Char := "https://".data
def urlLitH : List Char := "http://".data
def pciLit : List Char := "pciconcursos.com.br".data

/-- Attempts `https?://\S+` at this position. -/
def tryUrlAt (l : List Char) : Option (List Char) :=
  if urlLitS.isPrefixOf l then
    let run := (l.drop 8).takeWhile (fun c => !pySpace c)
    if run.isEmpty then none else some (urlLitS ++ run)
  else if urlLitH.isPrefixOf l then
    let run := (l.drop 7).takeWhile (fun c => !pySpace c)
    if run.isEmpty then none else some (urlLitH ++ run)
  else none

/-- Leftmost match of `https?://\S+` (line 92). -/
def urlSearch : List Char → Option (List Char)
  | [] => none
  | c :: rest =>
    match tryUrlAt (c :: rest) with
    | some u => some u
    | none => urlSearch rest

/-- Python `rstrip(").,;")`. -/
def rstripPunct (l : List Char) : List Char :=
  (l.reverse.dropWhile (fun c => c == ')' || c == '.' || c == ',' || c == ';')).reverse

/-- Source `find_official_link` (lines 85–95): first anchor whose href is an
absolute URL not on the source host, else the first bare URL in the text
with trailing punctuation stripped. -/
def find_official_link (c : Container) : Option String :=
  match c.anchors.find? (fun a => !subFind pciLit a.1.data &&
      (urlLitH.isPrefixOf a.1.data || urlLitS.isPrefixOf a.1.data)) with
  | some a => some a.1
  | none =>
    match urlSearch c.text.data with
    | some u => some (String.mk (rstripPunct u))
    | none => none

/-- Matches `\bSP\b` (IGNORECASE) somewhere; `prev` is the character
before the current position. -/
def spWordSearch : Option Char → List Char → Bool
  | _, [] => false
  | prev, c :: rest =>
    let prevOk := match prev with
      | none => true
      | some p => !pyWord p
    (prevOk && lowerChar c == 's' &&
      (match rest with
       | d :: rest2 => lowerChar d == 'p' && boundaryOk rest2
       | [] => false))
    || spWordSearch (some c) rest

/-- Models `re.search` of the pattern `\bSP\b|São Paulo` (IGNORECASE, lines 121–123),
as the existence of a match. -/
def spSearch (s : String) : Bool :=
  spWordSearch none s.data || ciFind "São Paulo".data s.data

/-- Models `urllib.parse.urljoin` for the href forms this scraper meets:
absolute URLs are returned unchanged; root-relative paths are attached to
the base's scheme and host; other relative paths replace the base's last
path segment. -/
def schemeHostChars (b : List Char) : List Char :=
  if urlLitS.isPrefixOf b then urlLitS ++ (b.drop 8).takeWhile (fun c => c != '/')
  else if urlLitH.isPrefixOf b then urlLitH ++ (b.drop 7).takeWhile (fun c => c != '/')
  else []

def pyUrljoin (base href : String) : String :=
  if urlLitH.isPrefixOf href.data || urlLitS.isPrefixOf href.data then href
  else if href.data.head? == some '/' then String.mk (schemeHostChars base.data ++ href.data)
  else String.mk ((base.data.reverse.dropWhile (fun c => c != '/')).reverse ++ href.data)

/-- One iteration of the container loop of `extract_contests`
(lines 111–147): first anchor and its text as title (skip when absent or
empty), São-Paulo relevance filter on container and parent text when
`filter_sp`, required future deadline parsed from the container text, then
the remaining field parsers over the container text. -/
def processContainer (c : Container) (base_url : String) (filter_sp : Bool)
    (today : Date) : Option Record :=
  match c.anchors.head? with
  | none => none
  | some a =>
    if a.2 == "" then none
    else
      let sp_match := spSearch c.text || spSearch c.parentText
      if filter_sp && !sp_match then none
      else
        match parse_date c.text with
        | none => none
        | some end_date =>
          if Date.blt end_date today then none
          else
            let prs := parse_salary c.text
            some { title := a.2
                   link := pyUrljoin base_url a.1
                   official_link := find_official_link c
                   end_date := end_date
                   vacancies := parse_vacancies c.text
                   salary_text := prs.1
                   salary_value := prs.2
                   raw_text := c.text }

/-- Models `contests[link] = ...` on a Python dict in insertion order: replace
in place when the link key exists, else append. -/
def upsert (m : List Record) (r : Record) : List Record :=
  if m.any (fun x => x.link == r.link) then
    m.map (fun x => if x.link == r.link then r else x)
  else m ++ [r]

/-- Source `extract_contests` (lines 98–148) applied to the containers the
locator produced: `list(contests.values())` of the link-keyed dict. -/
def extract_contests (containers : List Container) (base_url : String)
    (filter_sp : Bool) (today : Date) : List Record :=
  containers.foldl (fun acc c =>
    match processContainer c base_url filter_sp today with
    | none => acc
    | some r => upsert acc r) []

/-- JSON values, the contents of the persisted `concursos.json`. -/
inductive JValue where
  | null : JValue
  | bool : Bool → JValue
  | num : ℚ → JValue
  | str : String → JValue
  | arr : List JValue → JValue
  | obj : List (String × JValue) → JValue

/-- Python exceptions that can escape the modelled fragments. -/
inductive PyErr where
  | jsonDecodeError
  | valueError
  | typeError
  | unicodeDecodeError
  | recursionError
  deriving DecidableEq, Repr

/-- Models `dict.get` (JSON objects have unique keys). -/
def jGet : List (String × JValue) → String → Option JValue
  | [], _ => none
  | (k, v) :: rest, key => if k == key then some v else jGet rest key

/-- Python truthiness of a JSON value. -/
def jTruthy : JValue → Bool
  | .null => false
  | .bool b => b
  | .num q => q != 0
  | .str s => s != ""
  | .arr xs => !xs.isEmpty
  | .obj fs => !fs.isEmpty

/-- Decimal digit character for `k % 10`-style arguments. -/
def digitChar : Nat → Char
  | 0 => '0' | 1 => '1' | 2 => '2' | 3 => '3' | 4 => '4'
  | 5 => '5' | 6 => '6' | 7 => '7' | 8 => '8' | _ => '9'

def pad2Chars (n : Nat) : List Char := [digitChar (n / 10 % 10), digitChar (n % 10)]

def pad4Chars (n : Nat) : List Char :=
  [digitChar (n / 1000 % 10), digitChar (n / 100 % 10), digitChar (n / 10 % 10), digitChar (n % 10)]

/-- Models `date.isoformat()`: `YYYY-MM-DD` (dates are 1–9999, so the year is
four digits). -/
def dateToIso (d : Date) : String :=
  String.mk (pad4Chars d.year ++ '-' :: (pad2Chars d.month ++ '-' :: pad2Chars d.day))

/-! Model of `datetime.fromisoformat` (CPython 3.11, the version range the
source requires via its `str | None` annotations).  The C implementation in
`Modules/_datetimemodule.c` is ported pointer-for-pointer: strings are read
through `isoCharAt`, which yields the NUL character past the end, exactly as
the C parser's reads do; each component parser mirrors the corresponding C
function (`_find_isoformat_datetime_separator`, `parse_isoformat_date`,
`parse_hh_mm_ss_ff`, `parse_isoformat_time`) including its quirks (any
single character as the date-time separator, compact forms, ISO week dates,
a `parse_hh_mm_ss_ff` that tolerates a stray character exactly when a time
zone follows).  Only the resulting calendar date matters to the program
(`.date()` is taken at line 273); times and offsets are parsed for validity
and discarded. -/

/-- Character at index `i`, NUL past the end — the C parser reads through
the terminating NUL of the UTF-8 buffer. -/
def isoCharAt (s : List Char) (i : Nat) : Char := s.getD i '\x00'

/-- Length of the leading run of ASCII digits. -/
def countLeadingDigits : List Char → Nat
  | [] => 0
  | c :: rest => if c.isDigit then countLeadingDigits rest + 1 else 0

/-- Port of the C `parse_digits(p, &var, n)`: reads exactly `n` ASCII digits
starting at `p`, returning the value and the position after them. -/
def isoDigitsAux (s : List Char) : Nat → Nat → Nat → Option (Nat × Nat)
  | p, 0, acc => some (acc, p)
  | p, n + 1, acc =>
    let c := isoCharAt s p
    if c.isDigit then isoDigitsAux s (p + 1) n (acc * 10 + (c.toNat - 48))
    else none

/-- Index of the first `Z`/`+`/`-`, the scan `parse_isoformat_time` uses to
locate the time-zone designator. -/
def tzScan : List Char → Option Nat
  | [] => none
  | c :: rest =>
    if c == 'Z' || c == '+' || c == '-' then some 0
    else (tzScan rest).map (· + 1)

/-- Days in the year before the first of each month (non-leap), the
`_DAYS_BEFORE_MONTH` table. -/
def daysBeforeMonth : Nat → Nat
  | 1 => 0 | 2 => 31 | 3 => 59 | 4 => 90 | 5 => 120 | 6 => 151
  | 7 => 181 | 8 => 212 | 9 => 243 | 10 => 273 | 11 => 304 | 12 => 334
  | _ => 0

/-- Month length given a leap flag, the `_DAYS_IN_MONTH` table. -/
def dimOf (leap : Bool) : Nat → Nat
  | 2 => if leap then 29 else 28
  | 4 => 30 | 6 => 30 | 9 => 30 | 11 => 30
  | _ => 31

/-- Days before January 1 of year `y` (proleptic Gregorian), as
`_days_before_year`. -/
def daysBeforeYear (y : Nat) : Nat :=
  let n := y - 1
  n * 365 + n / 4 - n / 100 + n / 400

/-- Ordinal of January 1 of year `y`, as `_ymd2ord(y, 1, 1)`. -/
def ymd2ordJan1 (y : Nat) : Nat := daysBeforeYear y + 1

/-- Ordinal of the Monday starting ISO week 1 of year `y`, as
`_isoweek1monday`. -/
def isoweek1monday (y : Nat) : Nat :=
  let firstday := ymd2ordJan1 y
  let firstweekday := (firstday + 6) % 7
  if firstweekday > 3 then firstday + 7 - firstweekday
  else firstday - firstweekday

/-- Proleptic-Gregorian ordinal to (year, month, day), as `_ord2ymd` with
its 400/100/4/1-year cycle arithmetic. -/
def ord2ymd (nn : Nat) : Date :=
  let n0 := nn - 1
  let n400 := n0 / 146097
  let r400 := n0 % 146097
  let n100 := r400 / 36524
  let r100 := r400 % 36524
  let n4 := r100 / 1461
  let r4 := r100 % 1461
  let n1 := r4 / 365
  let n := r4 % 365
  let year := n400 * 400 + 1 + n100 * 100 + n4 * 4 + n1
  if n1 == 4 || n100 == 4 then ⟨year - 1, 12, 31⟩
  else
    let leap := n1 == 3 && (n4 != 24 || n100 == 3)
    let month := (n + 50) / 32
    let preceding := daysBeforeMonth month + (if month > 2 && leap then 1 else 0)
    if preceding > n then
      ⟨year, month - 1, n - (preceding - dimOf leap (month - 1)) + 1⟩
    else ⟨year, month, n - preceding + 1⟩

/-- ISO week date to Gregorian, as `_isoweek_to_gregorian`: year in 1–9999,
week in 1–52 (53 only for long ISO years), day in 1–7, and the resulting
year again in range. -/
def isoToYmd (year week day : Nat) : Option Date :=
  if year < 1 || year > 9999 then none
  else if !(1 ≤ week && week ≤ 52) &&
      !(week == 53 &&
        (let fw := ymd2ordJan1 year % 7
         fw == 4 || (fw == 3 && isLeap year))) then none
  else if day < 1 || day > 7 then none
  else
    let d := ord2ymd (isoweek1monday year + (week - 1) * 7 + (day - 1))
    if 1 ≤ d.year && d.year ≤ 9999 then some d else none

/-- Port of `_find_isoformat_datetime_separator`: the index of the single
character separating date from time (any character serves), from the shape
of the date portion alone.  Callers guarantee `s.length ≥ 7`. -/
def findIsoSep (s : List Char) : Option Nat :=
  let L := s.length
  if L == 7 then some 7
  else if isoCharAt s 4 == '-' then
    if isoCharAt s 5 == 'W' then
      if L < 8 then none
      else if L > 8 && isoCharAt s 8 == '-' then
        if L == 9 then none
        else if L > 10 && (isoCharAt s 10).isDigit then some 8
        else some 10
      else some 8
    else some 10
  else if isoCharAt s 4 == 'W' then
    let idx := 7 + countLeadingDigits (s.drop 7)
    if idx < 9 then some idx
    else if idx % 2 == 0 then some 7
    else some 8
  else some 8

/-- Final two digits and constructor validation of the calendar branch of
`parse_isoformat_date` (the C branch parses the day and leaves range
checking to the `date` constructor, with no end-of-string check). -/
def calFinish (s : List Char) (p : Nat) (year mo : Nat) : Option Date :=
  match isoDigitsAux s p 2 0 with
  | none => none
  | some (dd, _) => mkValidDate dd mo year

/-- Port of `parse_isoformat_date` on `s[0..dlen)`: `YYYY[-]MM[-]DD` or the
ISO week forms `YYYY[-]Www[[-]D]`; `dlen` bounds only the week branch, as in
the C code. -/
def parseIsoDatePart (s : List Char) (dlen : Nat) : Option Date :=
  match isoDigitsAux s 0 4 0 with
  | none => none
  | some (year, p0) =>
    let usesSep := isoCharAt s p0 == '-'
    let p1 := if usesSep then p0 + 1 else p0
    if isoCharAt s p1 == 'W' then
      match isoDigitsAux s (p1 + 1) 2 0 with
      | none => none
      | some (week, p2) =>
        if p2 < dlen then
          if usesSep then
            if isoCharAt s p2 == '-' then
              match isoDigitsAux s (p2 + 1) 1 0 with
              | none => none
              | some (day, p3) =>
                if p3 == dlen then isoToYmd year week day else none
            else none
          else
            match isoDigitsAux s p2 1 0 with
            | none => none
            | some (day, p3) =>
              if p3 == dlen then isoToYmd year week day else none
        else if p2 == dlen then isoToYmd year week 1
        else none
    else
      match isoDigitsAux s p1 2 0 with
      | none => none
      | some (mo, p2) =>
        if usesSep then
          if isoCharAt s p2 == '-' then calFinish s (p2 + 1) year mo
          else none
        else calFinish s p2 year mo

/-- Microsecond scale factors, the C `correction` table (index shifted by
one: `isoCorrection k` is the factor after parsing `k` fractional digits). -/
def isoCorrection : Nat → Nat
  | 1 => 100000 | 2 => 10000 | 3 => 1000 | 4 => 100 | 5 => 10
  | _ => 1

/-- Position after skipping the run of extra fractional digits, the C
`while (is_digit(*p)) ++p;`. -/
def skipDigitsFrom (s : List Char) (p : Nat) : Nat :=
  p + countLeadingDigits (s.drop p)

/-- Fractional-second tail of `parse_hh_mm_ss_ff`: up to six digits scaled
to microseconds, extra digits skipped; the Boolean mirrors the C return
value 1, "stopped at a character other than NUL" (tolerated by the caller
exactly when a time zone follows). -/
def isoFrac (s : List Char) (p clip : Nat) (hh mm ss : Nat) :
    Option (Bool × Nat × Nat × Nat × Nat) :=
  let toParse := min (clip - p) 6
  match isoDigitsAux s p toParse 0 with
  | none => none
  | some (v, q) =>
    let r := skipDigitsFrom s q
    some (isoCharAt s r != '\x00', hh, mm, ss, v * isoCorrection toParse)

/-- Third component (seconds) of `parse_hh_mm_ss_ff`; after it the loop
exits and any remainder is parsed as a fraction, dot or not — the C loop
falls through to the fractional parse. -/
def hmsComp3 (s : List Char) (p clip : Nat) (hasSep : Bool) (hh mm : Nat) :
    Option (Bool × Nat × Nat × Nat × Nat) :=
  match isoDigitsAux s p 2 0 with
  | none => none
  | some (ss, p1) =>
    let c := isoCharAt s p1
    if p1 + 1 ≥ clip then some (c != '\x00', hh, mm, ss, 0)
    else if c == ':' then
      if hasSep then isoFrac s (p1 + 1) clip hh mm ss else none
    else if c == '.' || c == ',' then isoFrac s (p1 + 1) clip hh mm ss
    else if hasSep then none
    else isoFrac s p1 clip hh mm ss

/-- Second component (minutes) of `parse_hh_mm_ss_ff`. -/
def hmsComp2 (s : List Char) (p clip : Nat) (hasSep : Bool) (hh : Nat) :
    Option (Bool × Nat × Nat × Nat × Nat) :=
  match isoDigitsAux s p 2 0 with
  | none => none
  | some (mm, p1) =>
    let c := isoCharAt s p1
    if p1 + 1 ≥ clip then some (c != '\x00', hh, mm, 0, 0)
    else if c == ':' then
      if hasSep then hmsComp3 s (p1 + 1) clip hasSep hh mm else none
    else if c == '.' || c == ',' then isoFrac s (p1 + 1) clip hh mm 0
    else if hasSep then none
    else hmsComp3 s p1 clip hasSep hh mm

/-- Port of `parse_hh_mm_ss_ff` on `s[start..clip)`: `[HH[:MM[:SS]]]` with
an optional fraction, separators either all `:` or all absent; the first
component fixes the style.  Returns the components and the stray-character
flag (the C return value 1; reading the char just past the clip is how the
C code behaves, `clip` being `tzinfo_pos`). -/
def parseHmsFf (s : List Char) (start clip : Nat) :
    Option (Bool × Nat × Nat × Nat × Nat) :=
  match isoDigitsAux s start 2 0 with
  | none => none
  | some (hh, p1) =>
    let c := isoCharAt s p1
    if p1 + 1 ≥ clip then some (c != '\x00', hh, 0, 0, 0)
    else if c == ':' then hmsComp2 s (p1 + 1) clip true hh
    else if c == '.' || c == ',' then isoFrac s (p1 + 1) clip hh 0 0
    else hmsComp2 s p1 clip (c == ':') hh

/-- Port of `parse_isoformat_time` on `s[tstart..)`: the portion before the
first `Z`/`+`/`-` as wall time, the rest as a time-zone designator — `Z`
exactly at the end, or a signed `parse_hh_mm_ss_ff` offset strictly within
24 hours; a stray character in the wall time is an error only when no time
zone follows.  The `datetime` constructor's hour/minute/second range checks
are folded in. -/
def parseIsoTimePart (s : List Char) (tstart : Nat) : Option (Nat × Nat × Nat × Nat) :=
  let L := s.length
  match tzScan (s.drop tstart) with
  | none =>
    match parseHmsFf s tstart L with
    | none => none
    | some (stray, h, m, sec, us) =>
      if stray then none
      else if h ≤ 23 && m ≤ 59 && sec ≤ 59 then some (h, m, sec, us)
      else none
  | some k =>
    let tzpos := tstart + k
    match parseHmsFf s tstart tzpos with
    | none => none
    | some (_, h, m, sec, us) =>
      if isoCharAt s tzpos == 'Z' then
        if isoCharAt s (tzpos + 1) != '\x00' then none
        else if h ≤ 23 && m ≤ 59 && sec ≤ 59 then some (h, m, sec, us)
        else none
      else
        match parseHmsFf s (tzpos + 1) L with
        | none => none
        | some (tzstray, th, tm, tsec, tus) =>
          if tzstray then none
          else if (th * 3600 + tm * 60 + tsec) * 1000000 + tus ≥ 86400000000 then none
          else if h ≤ 23 && m ≤ 59 && sec ≤ 59 then some (h, m, sec, us)
          else none

/-- Port of `datetime.fromisoformat` restricted to the date it yields: at
least 7 characters, the separator located from the date shape, the date
parsed up to it, and — when characters follow the separator — a valid time
portion required (its value discarded by `.date()`). -/
def fromIsoChars (s : List Char) : Option Date :=
  let L := s.length
  if L < 7 then none
  else
    match findIsoSep s with
    | none => none
    | some sep =>
      match parseIsoDatePart s (min sep L) with
      | none => none
      | some d =>
        if sep < L then
          match parseIsoTimePart s (sep + 1) with
          | none => none
          | some _ => some d
        else some d

/-- Models `datetime.fromisoformat(...).date()`, as called on persisted
`end_date` strings (line 273): `none` where the parser raises `ValueError`. -/
def fromIso (s : String) : Option Date := fromIsoChars s.data

/-- The `end_date` a persisted entry carries, as computed by the cleaning
loop of `main` (lines 267–275): `ok none` when the entry is not a dict,
lacks `end_date`, has a falsy one, or has a string one that fails ISO
parsing (the caught `ValueError`); `error typeError` when the value is
truthy but not a string (`datetime.fromisoformat` requires `str`, and
`TypeError` is not caught). -/
def itemEndDate (item : JValue) : Except PyErr (Option Date) :=
  match item with
  | .obj fs =>
    match jGet fs "end_date" with
    | none => .ok none
    | some v =>
      if jTruthy v then
        match v with
        | .str s => .ok (fromIso s)
        | _ => .error .typeError
      else .ok none
  | _ => .ok none

/-- Whether the cleaning loop keeps an entry: `end_date is None or
end_date >= today` (line 276). -/
def pruneKeep (item : JValue) (today : Date) : Except PyErr Bool :=
  match itemEndDate item with
  | .error e => .error e
  | .ok none => .ok true
  | .ok (some d) => .ok (Date.ble today d)

/-- The cleaning loop of `main` (lines 266–277): keep the entries whose
end date is absent/unparseable or not yet past. -/
def prune : List JValue → Date → Except PyErr (List JValue)
  | [], _ => .ok []
  | i :: rest, t =>
    match pruneKeep i t with
    | .error e => .error e
    | .ok keep =>
      match prune rest t with
      | .error e => .error e
      | .ok r => .ok (if keep then i :: r else r)

/-- Content of the storage file when present: bytes that do not decode as
UTF-8, text that is not valid JSON, JSON nested beyond the recursion
limit, or a well-formed value. -/
inductive FileContent where
  | undecodable : FileContent
  | malformed : FileContent
  | tooDeep : FileContent
  | wellFormed : JValue → FileContent

/-- State of the storage file. -/
inductive FileState where
  | absent : FileState
  | present : FileContent → FileState

/-- Models `json.load` on the file opened with `encoding="utf-8"`: the
parsed value; `UnicodeDecodeError` when the bytes are not UTF-8 (raised by
the decode inside `file.read()`); `JSONDecodeError` when the decoded text
is not valid JSON; `RecursionError` when nesting exceeds the interpreter's
recursion limit. -/
def json_load : FileContent → Except PyErr JValue
  | .undecodable => .error .unicodeDecodeError
  | .malformed => .error .jsonDecodeError
  | .tooDeep => .error .recursionError
  | .wellFormed v => .ok v

/-- Source `load_data` (lines 29–37): `[]` when the file is absent, the parsed
list when it parses to a list, `[]` otherwise; only `JSONDecodeError` is
caught — a `UnicodeDecodeError` or `RecursionError` from `json.load`
escapes uncaught. -/
def load_data (fs : FileState) : Except PyErr (List JValue) :=
  match fs with
  | .absent => .ok []
  | .present content =>
    match json_load content with
    | .error .jsonDecodeError => .ok []
    | .error e => .error e
    | .ok (JValue.arr xs) => .ok xs
    | .ok _ => .ok []

/-- Source `build_persisted_item` (lines 285–295): the subset of a record's
fields written to storage — `title`, `link`, `end_date` always;
`official_link` and `salary_text` when truthy; `vacancies` and
`salary_value` when not `None`. -/
def build_persisted_item (r : Record) : List (String × JValue) :=
  ("title", JValue.str r.title) :: ("link", JValue.str r.link) ::
    ("end_date", JValue.str (dateToIso r.end_date)) ::
  ((match r.official_link with
    | some s => if s != "" then [("official_link", JValue.str s)] else []
    | none => []) ++
   (match r.vacancies with
    | some n => [("vacancies", JValue.num n)]
    | none => []) ++
   (match r.salary_text with
    | some s => if s != "" then [("salary_text", JValue.str s)] else []
    | none => []) ++
   (match r.salary_value with
    | some p => [("salary_value", JValue.num (ratOfFrac p))]
    | none => []))

/-- The set `existing_links` (line 283): `item.get("link")` over the dict
entries of the cleaned persisted list. -/
def existingLinks (cleaned : List JValue) : List (Option JValue) :=
  cleaned.filterMap (fun item =>
    match item with
    | JValue.obj fs => some (jGet fs "link")
    | _ => none)

/-- Python `scraped_link in existing_links`: a string equals only an
equal string. -/
def isLinkVal (o : Option JValue) (link : String) : Bool :=
  match o with
  | some (JValue.str t) => link == t
  | _ => false

/-- Models `filter_sp = "sudeste" in base_url and "/sp" not in base_url`
(line 279). -/
def filterSpOf (base_url : String) : Bool :=
  subFind "sudeste".data base_url.data && !subFind "/sp".data base_url.data

/-- Outcome of one poll: the list written back to storage, the records
passed to `send_discord` (none are sent when the list is empty), and the
records extraction produced. -/
structure RunResult where
  saved : List JValue
  notified : List Record
  scraped : List Record

/-- Source `main` (lines 263–301) after the fetch: `existing` is the loaded
state, `containers` the nodes the locator yields on the fetched page.
Prune expired entries, extract, keep the records whose link is not
already persisted, append their persisted forms, and notify exactly
those. -/
def runMain (existing : List JValue) (base_url : String)
    (containers : List Container) (today : Date) : Except PyErr RunResult :=
  match prune existing today with
  | .error e => .error e
  | .ok cleaned =>
    let scraped := extract_contests containers base_url (filterSpOf base_url) today
    let links := existingLinks cleaned
    let new_items := scraped.filter (fun r => !(links.any (fun o => isLinkVal o r.link)))
    Except.ok
      { saved := cleaned ++ new_items.map (fun r => JValue.obj (build_persisted_item r))
        notified := new_items
        scraped := scraped }

/-- Written from the spec's words (§3, Identity): a record's title
normalized by whitespace collapsing and case folding.  Used only to
compare the spec's deduplication identity, (normalizedTitle, endDate),
with the link-based one the code implements. -/
def collapseWsAux : Bool → List Char → List Char
  | _, [] => []
  | prevSpace, c :: rest =>
    if pySpace c then collapseWsAux true rest
    else if prevSpace then ' ' :: c :: collapseWsAux false rest
    else c :: collapseWsAux false rest

def specNormalizedTitle (s : String) : String :=
  String.mk (collapseWsAux false ((s.data.map lowerChar).dropWhile pySpace))

/-! Concrete sample data used by the counterexamples and witnesses. -/

/-- A persisted entry with title "A", link `https://x.example/1` and end
date 2099-12-31, as `build_persisted_item` would have written it. -/
def stateA : List JValue :=
  [JValue.obj [("title", JValue.str "A"), ("link", JValue.str "https://x.example/1"),
    ("end_date", JValue.str "2099-12-31")]]

/-- A container presenting the same contest (title "A", deadline
31/12/2099) under the different link `https://x.example/2`. -/
def containerA2 : Container :=
  { anchors := [("https://x.example/2", "A")]
    text := "A Inscrições até 31/12/2099"
    parentText := "" }

/-- One of the configured endpoints (line 14); it contains neither
"sudeste" nor triggers the SP filter. -/
def baseUrl : String := "https://www.pciconcursos.com.br/concursos/sp/"

/-- A concrete "today" before the sample deadline. -/
def dayT : Date := ⟨2099, 1, 1⟩

/-- The record `extract_contests` produces from `containerA2`. -/
def recA2 : Record :=
  { title := "A"
    link := "https://x.example/2"
    official_link := some "https://x.example/2"
    end_date := ⟨2099, 12, 31⟩
    vacancies := none
    salary_text := none
    salary_value := none
    raw_text := "A Inscrições até 31/12/2099" }

/-- A container whose own text has no date; the deadline sits only in the
parent's text. -/
def containerNoDate : Container :=
  { anchors := [("https://x.example/a", "Concurso X")]
    text := "Concurso X"
    parentText := "Inscrições até 31/12/2099" }

/-! Helper lemmas. -/

theorem Date.ble_refl (d : Date) : Date.ble d d = true := by
  simp [Date.ble]

theorem Date.blt_self (d : Date) : Date.blt d d = false := by
  simp [Date.blt, Date.ble_refl]

theorem Date.blt_eq_false_iff (a b : Date) :
    Date.blt a b = false ↔ Date.ble b a = true := by
  simp [Date.blt]

theorem Date.ble_eq_false_of_blt (a b : Date) (h : Date.blt a b = true) :
    Date.ble b a = false := by
  simpa [Date.blt] using h

theorem digitChar_isDigit (k : Nat) : (digitChar k).isDigit = true := by
  unfold digitChar
  rcases k with _ | _ | _ | _ | _ | _ | _ | _ | _ | k <;> rfl

theorem digitChar_toNat (k : Nat) (h : k < 10) : (digitChar k).toNat = 48 + k := by
  unfold digitChar
  interval_cases k <;> rfl

theorem digitsToNat_pad2 (n : Nat) (h : n < 100) : digitsToNat (pad2Chars n) = n := by
  show (0 * 10 + ((digitChar (n / 10 % 10)).toNat - 48)) * 10 +
      ((digitChar (n % 10)).toNat - 48) = n
  rw [digitChar_toNat _ (Nat.mod_lt _ (by norm_num)),
    digitChar_toNat _ (Nat.mod_lt _ (by norm_num))]
  omega

theorem digitsToNat_pad4 (n : Nat) (h : n < 10000) : digitsToNat (pad4Chars n) = n := by
  show (((0 * 10 + ((digitChar (n / 1000 % 10)).toNat - 48)) * 10 +
      ((digitChar (n / 100 % 10)).toNat - 48)) * 10 +
      ((digitChar (n / 10 % 10)).toNat - 48)) * 10 +
      ((digitChar (n % 10)).toNat - 48) = n
  rw [digitChar_toNat _ (Nat.mod_lt _ (by norm_num)),
    digitChar_toNat _ (Nat.mod_lt _ (by norm_num)),
    digitChar_toNat _ (Nat.mod_lt _ (by norm_num)),
    digitChar_toNat _ (Nat.mod_lt _ (by norm_num))]
  omega

theorem dateValid_bounds (d : Date) (h : dateValid d = true) :
    1 ≤ d.year ∧ d.year ≤ 9999 ∧ 1 ≤ d.month ∧ d.month ≤ 12 ∧
      1 ≤ d.day ∧ d.day ≤ daysInMonth d.year d.month := by
  simpa [dateValid, Bool.and_eq_true, decide_eq_true_eq, and_assoc] using h

theorem daysInMonth_le (y m : Nat) : daysInMonth y m ≤ 31 := by
  unfold daysInMonth
  split_ifs <;> omega

theorem digitChar_ne_W (k : Nat) : (digitChar k == 'W') = false := by
  unfold digitChar
  rcases k with _ | _ | _ | _ | _ | _ | _ | _ | _ | k <;> rfl

theorem fromIsoChars_canonical (a1 a2 a3 a4 b1 b2 c1 c2 : Char)
    (h1 : a1.isDigit = true) (h2 : a2.isDigit = true) (h3 : a3.isDigit = true)
    (h4 : a4.isDigit = true) (h5 : b1.isDigit = true) (h6 : b2.isDigit = true)
    (h7 : c1.isDigit = true) (h8 : c2.isDigit = true) (hw : (b1 == 'W') = false) :
    fromIsoChars [a1, a2, a3, a4, '-', b1, b2, '-', c1, c2] =
      mkValidDate (digitsToNat [c1, c2]) (digitsToNat [b1, b2])
        (digitsToNat [a1, a2, a3, a4]) := by
  simp only [fromIsoChars, findIsoSep, parseIsoDatePart, calFinish, isoDigitsAux, isoCharAt,
    List.getD_cons_zero, List.getD_cons_succ, List.length_cons, List.length_nil,
    h1, h2, h3, h4, h5, h6, h7, h8, hw, if_true, if_false, beq_self_eq_true,
    digitsToNat, List.foldl]
  norm_num
  split
  · rename_i heq
    exact heq.symm
  · rename_i d heq
    exact heq.symm

theorem fromIso_dateToIso (d : Date) (h : dateValid d = true) :
    fromIso (dateToIso d) = some d := by
  obtain ⟨hy1, hy2, hm1, hm2, hd1, hd2⟩ := dateValid_bounds d h
  have hdle := daysInMonth_le d.year d.month
  obtain ⟨y, m, dd⟩ := d
  simp only at hy1 hy2 hm1 hm2 hd1 hd2 hdle
  have e4 : digitsToNat [digitChar (y / 1000 % 10), digitChar (y / 100 % 10),
      digitChar (y / 10 % 10), digitChar (y % 10)] = y := digitsToNat_pad4 y (by omega)
  have e2m : digitsToNat [digitChar (m / 10 % 10), digitChar (m % 10)] = m :=
    digitsToNat_pad2 m (by omega)
  have e2d : digitsToNat [digitChar (dd / 10 % 10), digitChar (dd % 10)] = dd :=
    digitsToNat_pad2 dd (by omega)
  show fromIsoChars (pad4Chars y ++ '-' :: (pad2Chars m ++ '-' :: pad2Chars dd)) = _
  simp only [pad4Chars, pad2Chars, List.cons_append, List.nil_append]
  rw [fromIsoChars_canonical _ _ _ _ _ _ _ _ (digitChar_isDigit _) (digitChar_isDigit _)
    (digitChar_isDigit _) (digitChar_isDigit _) (digitChar_isDigit _) (digitChar_isDigit _)
    (digitChar_isDigit _) (digitChar_isDigit _) (digitChar_ne_W _), e4, e2m, e2d]
  unfold mkValidDate
  rw [if_pos h]

theorem dateToIso_ne_empty (d : Date) : (dateToIso d) ≠ "" := by
  intro hc
  have : (dateToIso d).data = ("" : String).data := by rw [hc]
  simp [dateToIso] at this

theorem jTruthy_iso (d : Date) : jTruthy (JValue.str (dateToIso d)) = true := by
  simp [jTruthy, dateToIso_ne_empty]

theorem daysInMonth_pos (y m : Nat) : 1 ≤ daysInMonth y m := by
  unfold daysInMonth
  split_ifs <;> omega

theorem prevDay_valid (t : Date) (h : dateValid t = true) (hm : t ≠ ⟨1, 1, 1⟩) :
    dateValid (prevDay t) = true := by
  obtain ⟨hy1, hy2, hm1, hm2, hd1, hd2⟩ := dateValid_bounds t h
  obtain ⟨y, m, dd⟩ := t
  simp only at hy1 hy2 hm1 hm2 hd1 hd2
  simp only [ne_eq, Date.mk.injEq, not_and] at hm
  unfold prevDay
  simp only
  split_ifs with h1 h2
  · simp only [dateValid, decide_eq_true_eq, Bool.and_eq_true]
    refine ⟨⟨⟨⟨⟨?_, ?_⟩, ?_⟩, ?_⟩, ?_⟩, ?_⟩ <;> omega
  · have := daysInMonth_pos y (m - 1)
    have := daysInMonth_le y (m - 1)
    simp only [dateValid, decide_eq_true_eq, Bool.and_eq_true]
    refine ⟨⟨⟨⟨⟨?_, ?_⟩, ?_⟩, ?_⟩, ?_⟩, ?_⟩ <;> omega
  · have hy : 2 ≤ y := by
      rcases Nat.lt_or_ge y 2 with hlt | hge
      · exfalso
        have hyv : y = 1 := by omega
        have hmv : m = 1 := by omega
        have hdv : dd = 1 := by omega
        exact hm hyv hmv hdv
      · exact hge
    have h31 : daysInMonth (y - 1) 12 = 31 := by norm_num [daysInMonth]
    simp only [dateValid, decide_eq_true_eq, Bool.and_eq_true]
    refine ⟨⟨⟨⟨⟨?_, ?_⟩, ?_⟩, ?_⟩, ?_⟩, ?_⟩ <;> omega

theorem prevDay_blt (t : Date) (h : dateValid t = true) (hm : t ≠ ⟨1, 1, 1⟩) :
    Date.blt (prevDay t) t = true := by
  obtain ⟨hy1, hy2, hm1, hm2, hd1, hd2⟩ := dateValid_bounds t h
  obtain ⟨y, m, dd⟩ := t
  simp only at hy1 hy2 hm1 hm2 hd1 hd2
  simp only [ne_eq, Date.mk.injEq, not_and] at hm
  unfold prevDay
  simp only
  split_ifs with h1 h2 <;>
    · simp only [Date.blt, Date.ble, Bool.not_eq_true', decide_eq_false_iff_not]
      omega

/-! Prune algebra. -/

theorem prune_append (a b : List JValue) (t : Date) (ca cb : List JValue)
    (ha : prune a t = .ok ca) (hb : prune b t = .ok cb) :
    prune (a ++ b) t = .ok (ca ++ cb) := by
  induction a generalizing ca with
  | nil =>
    simp only [prune] at ha
    cases ha
    simpa using hb
  | cons i rest ih =>
    simp only [prune] at ha
    cases hk : pruneKeep i t with
    | error e => rw [hk] at ha; cases ha
    | ok keep =>
      rw [hk] at ha
      cases hr : prune rest t with
      | error e => rw [hr] at ha; cases ha
      | ok cr =>
        rw [hr] at ha
        cases ha
        have hsub := ih cr hr
        show prune (i :: (rest ++ b)) t = _
        simp only [prune, hk, hsub]
        cases keep <;> simp

theorem prune_mem_keep (l : List JValue) (t : Date) (c : List JValue)
    (h : prune l t = .ok c) : ∀ i ∈ c, pruneKeep i t = .ok true := by
  induction l generalizing c with
  | nil =>
    simp only [prune] at h
    cases h
    simp
  | cons i rest ih =>
    simp only [prune] at h
    cases hk : pruneKeep i t with
    | error e => rw [hk] at h; cases h
    | ok keep =>
      rw [hk] at h
      cases hr : prune rest t with
      | error e => rw [hr] at h; cases h
      | ok cr =>
        rw [hr] at h
        cases h
        intro x hx
        cases keep with
        | false => exact ih cr hr x (by simpa using hx)
        | true =>
          simp only [if_true, List.mem_cons] at hx
          rcases hx with rfl | hx
          · exact hk
          · exact ih cr hr x hx

theorem prune_of_all_keep (l : List JValue) (t : Date)
    (h : ∀ i ∈ l, pruneKeep i t = .ok true) : prune l t = .ok l := by
  induction l with
  | nil => rfl
  | cons i rest ih =>
    have hk := h i (by simp)
    have hr := ih (fun x hx => h x (by simp [hx]))
    simp [prune, hk, hr]

theorem prune_idem (l : List JValue) (t : Date) (c : List JValue)
    (h : prune l t = .ok c) : prune c t = .ok c :=
  prune_of_all_keep c t (prune_mem_keep l t c h)

theorem prune_not_mem (l : List JValue) (t : Date) (c : List JValue) (i : JValue)
    (h : prune l t = .ok c) (hi : pruneKeep i t = .ok false) : i ∉ c := by
  intro hmem
  have := prune_mem_keep l t c h i hmem
  rw [hi] at this
  cases this

theorem prune_mem_of_keep (l : List JValue) (t : Date) (c : List JValue) (i : JValue)
    (h : prune l t = .ok c) (hil : i ∈ l) (hi : pruneKeep i t = .ok true) : i ∈ c := by
  induction l generalizing c with
  | nil => cases hil
  | cons j rest ih =>
    simp only [prune] at h
    cases hk : pruneKeep j t with
    | error e => rw [hk] at h; cases h
    | ok keep =>
      rw [hk] at h
      cases hr : prune rest t with
      | error e => rw [hr] at h; cases h
      | ok cr =>
        rw [hr] at h
        cases h
        rcases List.mem_cons.mp hil with rfl | hmem
        · rw [hi] at hk
          cases hk
          simp
        · have := ih cr hr hmem
          cases keep <;> simp [this]

/-! Extraction lemmas. -/

theorem upsert_mem (m : List Record) (x r : Record) (h : x ∈ upsert m r) :
    x ∈ m ∨ x = r := by
  unfold upsert at h
  split_ifs at h with hc
  · rcases List.mem_map.mp h with ⟨y, hy, hxy⟩
    by_cases hl : y.link == r.link
    · rw [if_pos hl] at hxy
      exact Or.inr hxy.symm
    · rw [if_neg hl] at hxy
      exact Or.inl (hxy ▸ hy)
  · rcases List.mem_append.mp h with hm | hr
    · exact Or.inl hm
    · exact Or.inr (List.mem_singleton.mp hr)

theorem extract_mem (cs : List Container) (u : String) (f : Bool) (t : Date)
    (r : Record) (h : r ∈ extract_contests cs u f t) :
    ∃ c ∈ cs, processContainer c u f t = some r := by
  suffices H : ∀ acc, r ∈ cs.foldl (fun acc c =>
      match processContainer c u f t with
      | none => acc
      | some x => upsert acc x) acc →
      r ∈ acc ∨ ∃ c ∈ cs, processContainer c u f t = some r by
    rcases H [] h with hacc | hex
    · cases hacc
    · exact hex
  clear h
  induction cs with
  | nil => intro acc h; exact Or.inl h
  | cons c rest ih =>
    intro acc h
    rw [List.foldl_cons] at h
    rcases ih _ h with hacc | ⟨c2, hc2, hp⟩
    · cases hpc : processContainer c u f t with
      | none =>
        rw [hpc] at hacc
        exact Or.inl hacc
      | some x =>
        rw [hpc] at hacc
        rcases upsert_mem acc r x hacc with hm | rfl
        · exact Or.inl hm
        · exact Or.inr ⟨c, by simp, hpc⟩
    · exact Or.inr ⟨c2, by simp [hc2], hp⟩

theorem processContainer_fields (c : Container) (u : String) (f : Bool) (t : Date)
    (r : Record) (h : processContainer c u f t = some r) :
    parse_date c.text = some r.end_date ∧ Date.blt r.end_date t = false ∧
      r.vacancies = parse_vacancies c.text ∧
      r.salary_text = (parse_salary c.text).1 ∧
      r.salary_value = (parse_salary c.text).2 ∧
      r.raw_text = c.text := by
  unfold processContainer at h
  cases ha : c.anchors.head? with
  | none => rw [ha] at h; exact Option.noConfusion h
  | some a =>
    rw [ha] at h
    simp only at h
    split_ifs at h with h1 h2
    cases hd : parse_date c.text with
    | none => rw [hd] at h; exact Option.noConfusion h
    | some ed =>
      rw [hd] at h
      simp only at h
      split_ifs at h with h3
      rw [Option.some.injEq] at h
      subst h
      dsimp only
      refine ⟨rfl, ?_, rfl, rfl, rfl, rfl⟩
      simpa using h3

theorem mkValidDate_valid (d m y : Nat) (x : Date) (h : mkValidDate d m y = some x) :
    dateValid x = true := by
  unfold mkValidDate at h
  split_ifs at h with hv
  cases h
  exact hv

theorem parse_date_valid (s : String) (d : Date) (h : parse_date s = some d) :
    dateValid d = true := by
  unfold parse_date at h
  simp only at h
  rcases hm : (match (if ciFind inscLit s.data then inscSearch s.data else none) with
    | some r => some r
    | none => datePatternSearch none s.data) with _ | ⟨dd, mm, yy⟩
  · rw [hm] at h; cases h
  · rw [hm] at h
    exact mkValidDate_valid dd mm yy d h

theorem extract_fresh (cs : List Container) (u : String) (f : Bool) (t : Date)
    (r : Record) (h : r ∈ extract_contests cs u f t) :
    Date.ble t r.end_date = true ∧ dateValid r.end_date = true := by
  rcases extract_mem cs u f t r h with ⟨c, _, hp⟩
  obtain ⟨hpd, hblt, -⟩ := processContainer_fields c u f t r hp
  exact ⟨(Date.blt_eq_false_iff r.end_date t).mp hblt, parse_date_valid c.text r.end_date hpd⟩

/-! Persisted-item lemmas. -/

theorem jGet_build_end_date (r : Record) :
    jGet (build_persisted_item r) "end_date" = some (JValue.str (dateToIso r.end_date)) := by
  rfl

theorem jGet_build_link (r : Record) :
    jGet (build_persisted_item r) "link" = some (JValue.str r.link) := by
  rfl

theorem pruneKeep_build (r : Record) (t : Date) (hv : dateValid r.end_date = true)
    (hf : Date.ble t r.end_date = true) :
    pruneKeep (JValue.obj (build_persisted_item r)) t = .ok true := by
  unfold pruneKeep itemEndDate
  simp only [jGet_build_end_date, jTruthy_iso, if_true, fromIso_dateToIso r.end_date hv, hf]

theorem prune_build_list (rs : List Record) (t : Date)
    (h : ∀ r ∈ rs, dateValid r.end_date = true ∧ Date.ble t r.end_date = true) :
    prune (rs.map (fun r => JValue.obj (build_persisted_item r))) t =
      .ok (rs.map (fun r => JValue.obj (build_persisted_item r))) := by
  apply prune_of_all_keep
  intro i hi
  rcases List.mem_map.mp hi with ⟨r, hr, rfl⟩
  exact pruneKeep_build r t (h r hr).1 (h r hr).2

/-! The salary match is a verbatim slice of the input. -/

theorem salaryTail_isPre (tail m : List Char) (h : salaryTail tail = some m) :
    m <+: tail := by
  unfold salaryTail at h
  dsimp only at h
  split at h
  · exact Option.noConfusion h
  · rename_i k hfk
    split at h
    · rename_i a b l heq
      rw [Option.some.injEq] at h
      subst h
      refine ⟨l, ?_⟩
      have hcab : [',', a, b] ++ l = ((tail.dropWhile pySpace).drop k) := by
        rw [heq]; rfl
      rw [List.append_assoc, List.append_assoc, hcab,
        List.take_append_drop k (tail.dropWhile pySpace),
        List.takeWhile_append_dropWhile pySpace tail]
    · exact Option.noConfusion h

theorem trySalaryAt_isPre (l m : List Char) (h : trySalaryAt l = some m) :
    m <+: l := by
  unfold trySalaryAt at h
  split at h
  · rename_i tail
    cases hs : salaryTail tail with
    | none => rw [hs] at h; exact Option.noConfusion h
    | some m2 =>
      rw [hs, Option.some.injEq] at h
      subst h
      rcases salaryTail_isPre tail m2 hs with ⟨suf, hsuf⟩
      exact ⟨suf, by simp [hsuf]⟩
  · exact Option.noConfusion h

theorem salarySearch_isInf (l m : List Char) (h : salarySearch l = some m) :
    m <:+: l := by
  induction l with
  | nil => exact Option.noConfusion h
  | cons c rest ih =>
    simp only [salarySearch] at h
    cases ht : trySalaryAt (c :: rest) with
    | some m2 =>
      rw [ht, Option.some.injEq] at h
      subst h
      exact (trySalaryAt_isPre _ _ ht).isInfix
    | none =>
      rw [ht] at h
      exact List.infix_cons (ih h)

/-! Unfolding `runMain` through a successful prune. -/

theorem runMain_eq (existing : List JValue) (u : String) (cs : List Container)
    (t : Date) (cleaned : List JValue) (hp : prune existing t = .ok cleaned) :
    runMain existing u cs t = .ok
      { saved := cleaned ++ ((extract_contests cs u (filterSpOf u) t).filter
          (fun r => !((existingLinks cleaned).any (fun o => isLinkVal o r.link)))).map
            (fun r => JValue.obj (build_persisted_item r))
        notified := (extract_contests cs u (filterSpOf u) t).filter
          (fun r => !((existingLinks cleaned).any (fun o => isLinkVal o r.link)))
        scraped := extract_contests cs u (filterSpOf u) t } := by
  unfold runMain
  rw [hp]

theorem prune_ok_forall (l : List JValue) (t : Date) (c : List JValue)
    (h : prune l t = .ok c) : ∀ i ∈ l, ∃ b, pruneKeep i t = .ok b := by
  induction l generalizing c with
  | nil => simp
  | cons j rest ih =>
    simp only [prune] at h
    cases hk : pruneKeep j t with
    | error e => rw [hk] at h; cases h
    | ok keep =>
      rw [hk] at h
      cases hr : prune rest t with
      | error e => rw [hr] at h; cases h
      | ok cr =>
        intro i hi
        rcases List.mem_cons.mp hi with rfl | hmem
        · exact ⟨keep, hk⟩
        · exact ih cr hr i hmem

theorem existingLinks_append (a b : List JValue) :
    existingLinks (a ++ b) = existingLinks a ++ existingLinks b := by
  unfold existingLinks
  exact List.filterMap_append a b _

/-! Further sample data for witnesses. -/

/-- A persisted entry under the link `https://x.example/2` (the link
`containerA2` presents), with a different title. -/
def stateB : List JValue :=
  [JValue.obj [("title", JValue.str "B"), ("link", JValue.str "https://x.example/2"),
    ("end_date", JValue.str "2099-12-31")]]

/-- The scenario text of the spec's parser test (§8). -/
def scenarioText : String := "Inscrições até 31/12/2099 ... R$ 1.234,56 ... 3 vagas"

/-- A container whose deadline is exactly the sample "today" 2099-03-01. -/
def cY : Container :=
  { anchors := [("https://x.example/y", "Concurso Y")]
    text := "Concurso Y Inscrições até 01/03/2099"
    parentText := "" }

/-- A container whose deadline is one day before 2099-03-01. -/
def cZ : Container :=
  { anchors := [("https://x.example/z", "Concurso Z")]
    text := "Concurso Z Inscrições até 28/02/2099"
    parentText := "" }

/-- The record extracted from `cY`. -/
def recY : Record :=
  { title := "Concurso Y"
    link := "https://x.example/y"
    official_link := some "https://x.example/y"
    end_date := ⟨2099, 3, 1⟩
    vacancies := none
    salary_text := none
    salary_value := none
    raw_text := "Concurso Y Inscrições até 01/03/2099" }

/-- A persisted entry that expired long before the sample "today". -/
def expiredItem : JValue := JValue.obj [("end_date", JValue.str "2000-01-01")]

/-! The claims. -/

/-- Claim C3 (confirmed): every persisted entry whose end date parses to a
date strictly before today is excluded by the cleaning (pruning) loop, and
pruning is idempotent — pruning an already pruned list returns it
unchanged. -/
theorem c3_prune_expired_idempotent :
    (∀ (existing : List JValue) (t : Date) (item : JValue) (d : Date)
        (cleaned : List JValue),
      item ∈ existing → itemEndDate item = .ok (some d) → Date.blt d t = true →
      prune existing t = .ok cleaned → item ∉ cleaned) ∧
    (∀ (existing cleaned : List JValue) (t : Date),
      prune existing t = .ok cleaned → prune cleaned t = .ok cleaned) := by
  constructor
  · intro ex t item d cleaned hmem hed hblt hp
    apply prune_not_mem ex t cleaned item hp
    unfold pruneKeep
    rw [hed]
    dsimp only
    rw [Date.ble_eq_false_of_blt d t hblt]
  · intro ex cleaned t hp
    exact prune_idem ex t cleaned hp

/-- Witness for C3 at a concrete expired entry and a concrete date. -/
theorem c3_witness :
    expiredItem ∉ ([] : List JValue) ∧ prune [] dayT = .ok [] :=
  ⟨c3_prune_expired_idempotent.1 [expiredItem] dayT expiredItem ⟨2000, 1, 1⟩ []
      (by simp) rfl (by decide) rfl,
    c3_prune_expired_idempotent.2 [expiredItem] [] dayT rfl⟩

/-- Claim C4 (corrected), counterexample: the text handed to the field
parsers is the container's own text, not container plus parent.  A
container whose deadline appears only in the parent's text parses to no
`end_date` and is dropped: extraction yields nothing and the run notifies
nothing, although `parse_date` run on the combined container-plus-parent
blob (and even on the parent text alone) finds the deadline. -/
theorem c4_counterexample :
    extract_contests [containerNoDate] baseUrl false dayT = [] ∧
    runMain [] baseUrl [containerNoDate] dayT =
      .ok { saved := [], notified := [], scraped := [] } ∧
    parse_date (containerNoDate.text ++ " " ++ containerNoDate.parentText) =
      some ⟨2099, 12, 31⟩ ∧
    parse_date containerNoDate.text = none :=
  ⟨by decide, rfl, by decide, by decide⟩

/-- Claim C4, amended: for every record the extractor emits, the deadline,
salary, vacancy count and raw text are all computed from the container's
own text; the parent text is consulted only by the relevance filter. -/
theorem c4_container_text_only (cs : List Container) (u : String) (f : Bool)
    (t : Date) (r : Record) (h : r ∈ extract_contests cs u f t) :
    ∃ c ∈ cs, parse_date c.text = some r.end_date ∧
      r.vacancies = parse_vacancies c.text ∧
      r.salary_text = (parse_salary c.text).1 ∧
      r.salary_value = (parse_salary c.text).2 ∧
      r.raw_text = c.text := by
  rcases extract_mem cs u f t r h with ⟨c, hc, hp⟩
  obtain ⟨h1, h2, h3, h4, h5, h6⟩ := processContainer_fields c u f t r hp
  exact ⟨c, hc, h1, h3, h4, h5, h6⟩

/-- Witness for the amended C4 at a concrete container. -/
theorem c4_witness :
    ∃ c ∈ [containerA2], parse_date c.text = some recA2.end_date ∧
      recA2.vacancies = parse_vacancies c.text ∧
      recA2.salary_text = (parse_salary c.text).1 ∧
      recA2.salary_value = (parse_salary c.text).2 ∧
      recA2.raw_text = c.text :=
  c4_container_text_only [containerA2] baseUrl false dayT recA2 (by decide)

/-- Claim C5 (confirmed): on the spec's scenario text, `parse_date`
returns 2099-12-31, `parse_salary` returns the display text
"R$ 1.234,56" with the exact value 123456/100 = 1234.56, and
`parse_vacancies` returns 3. -/
theorem c5_scenario_parsers :
    parse_date scenarioText = some ⟨2099, 12, 31⟩ ∧
    parse_salary scenarioText = (some "R$ 1.234,56", some (123456, 100)) ∧
    ratOfFrac (123456, 100) = (1234.56 : ℚ) ∧
    parse_vacancies scenarioText = some 3 :=
  ⟨by decide, by decide, by norm_num [ratOfFrac], by decide⟩

/-- Claim C7 (confirmed): every persisted object holds only fields from
{title, link, end_date, official_link, vacancies, salary_text,
salary_value}; title, link and end_date are always present; the optional
fields appear exactly when the record carries them (truthily for the
string-valued ones, non-`None` for the numeric ones); `raw_text` is never
written. -/
theorem c7_persisted_field_set (r : Record) :
    ((build_persisted_item r).map Prod.fst ⊆
      ["title", "link", "end_date", "official_link", "vacancies",
        "salary_text", "salary_value"]) ∧
    "title" ∈ (build_persisted_item r).map Prod.fst ∧
    "link" ∈ (build_persisted_item r).map Prod.fst ∧
    "end_date" ∈ (build_persisted_item r).map Prod.fst ∧
    "raw_text" ∉ (build_persisted_item r).map Prod.fst ∧
    ("official_link" ∈ (build_persisted_item r).map Prod.fst ↔
      ∃ s, r.official_link = some s ∧ s ≠ "") ∧
    ("vacancies" ∈ (build_persisted_item r).map Prod.fst ↔ r.vacancies ≠ none) ∧
    ("salary_text" ∈ (build_persisted_item r).map Prod.fst ↔
      ∃ s, r.salary_text = some s ∧ s ≠ "") ∧
    ("salary_value" ∈ (build_persisted_item r).map Prod.fst ↔ r.salary_value ≠ none) := by
  obtain ⟨ti, li, ol, ed, va, st, sv, ra⟩ := r
  unfold build_persisted_item
  dsimp only
  rcases ol with _ | s <;> rcases va with _ | n <;> rcases st with _ | s2 <;>
    rcases sv with _ | p <;>
    simp_all [List.subset_def] <;> tauto

/-- Witness for C7 at a concrete record: its official link is persisted,
its raw text is not. -/
theorem c7_witness :
    "official_link" ∈ (build_persisted_item recA2).map Prod.fst ∧
    "raw_text" ∉ (build_persisted_item recA2).map Prod.fst :=
  ⟨(c7_persisted_field_set recA2).2.2.2.2.2.1.mpr ⟨"https://x.example/2", rfl, by decide⟩,
    (c7_persisted_field_set recA2).2.2.2.2.1⟩

/-- Claim C8 (corrected), counterexample: `parse_salary` never annotates
the display text — there is no hourly-rate threshold in the code.  For a
matched value of 100 (< 500) the display text is exactly the matched
currency substring, in the same form as for a value of 600 (≥ 500). -/
theorem c8_counterexample :
    parse_salary "R$ 100,00" = (some "R$ 100,00", some (10000, 100)) ∧
    ratOfFrac (10000, 100) < 500 ∧
    parse_salary "R$ 600,00" = (some "R$ 600,00", some (60000, 100)) ∧
    ¬ ratOfFrac (60000, 100) < 500 :=
  ⟨by decide, by norm_num [ratOfFrac], by decide, by norm_num [ratOfFrac]⟩

/-- Claim C8, amended: for every input, the display text `parse_salary`
returns is a verbatim contiguous substring of the input (the matched
currency pattern), regardless of the numeric value — no hourly-rate
annotation is ever added. -/
theorem c8_display_verbatim (s m : String) (h : (parse_salary s).1 = some m) :
    m.data <:+: s.data := by
  unfold parse_salary at h
  cases hs : salarySearch s.data with
  | none => rw [hs] at h; exact Option.noConfusion h
  | some l =>
    rw [hs] at h
    dsimp only at h
    rw [Option.some.injEq] at h
    subst h
    exact salarySearch_isInf s.data l hs

/-- Witness for the amended C8 at a concrete input. -/
theorem c8_witness : ("R$ 600,00").data <:+: ("x R$ 600,00 y").data :=
  c8_display_verbatim "x R$ 600,00 y" "R$ 600,00" (by decide)

/-- Claim C9 (corrected), counterexample: `load_data` can raise.  The
`try` at lines 32–37 catches only `json.JSONDecodeError`; a storage file
whose bytes are not valid UTF-8 makes `json.load` raise
`UnicodeDecodeError`, and JSON nested beyond the recursion limit makes it
raise `RecursionError` — both escape `load_data` uncaught. -/
theorem c9_counterexample :
    load_data (.present .undecodable) = .error .unicodeDecodeError ∧
    load_data (.present .tooDeep) = .error .recursionError :=
  ⟨rfl, rfl⟩

/-- Claim C9, amended: `load_data` returns the empty list when the file is
absent, when its text is malformed JSON (`JSONDecodeError` being the one
exception caught), and when it parses to a non-list; it returns the parsed
list itself otherwise.  It is not exception-free: the only escapes are
`UnicodeDecodeError` (non-UTF-8 bytes) and `RecursionError` (over-deep
nesting), neither of which `except json.JSONDecodeError` intercepts. -/
theorem c9_load_data_cases :
    load_data .absent = .ok [] ∧
    load_data (.present .malformed) = .ok [] ∧
    (∀ xs : List JValue,
      load_data (.present (.wellFormed (JValue.arr xs))) = .ok xs) ∧
    (∀ v : JValue, (∀ xs, v ≠ JValue.arr xs) →
      load_data (.present (.wellFormed v)) = .ok []) ∧
    (∀ (fs : FileState) (e : PyErr), load_data fs = .error e →
      e = .unicodeDecodeError ∨ e = .recursionError) := by
  refine ⟨rfl, rfl, fun xs => rfl, ?_, ?_⟩
  · intro v hv
    cases v with
    | arr xs => exact absurd rfl (hv xs)
    | null => rfl
    | bool b => rfl
    | num q => rfl
    | str s => rfl
    | obj fs => rfl
  · intro fs e h
    cases fs with
    | absent => exact Except.noConfusion h
    | present content =>
      cases content with
      | undecodable => exact Or.inl (Except.error.inj h).symm
      | malformed => exact Except.noConfusion h
      | tooDeep => exact Or.inr (Except.error.inj h).symm
      | wellFormed v => cases v <;> exact Except.noConfusion h

/-- Witness for the amended C9 at concrete file contents: a parsed list is
returned as-is, a non-list parse yields the empty list, and the error a
non-UTF-8 file raises is one of the two uncaught classes. -/
theorem c9_witness :
    load_data (.present (.wellFormed (JValue.arr [JValue.null]))) = .ok [JValue.null] ∧
    load_data (.present (.wellFormed (JValue.num 3))) = .ok [] ∧
    (PyErr.unicodeDecodeError = .unicodeDecodeError ∨
      PyErr.unicodeDecodeError = .recursionError) :=
  ⟨c9_load_data_cases.2.2.1 [JValue.null],
    c9_load_data_cases.2.2.2.1 (JValue.num 3) (fun xs h => JValue.noConfusion h),
    c9_load_data_cases.2.2.2.2 (.present .undecodable) .unicodeDecodeError rfl⟩

/-- Claim C10 (corrected), counterexample: a persisted entry whose
`end_date` is a truthy non-string (here the number 5) is not retained —
`datetime.fromisoformat` is called on a non-`str`, which raises an
uncaught `TypeError`, aborting the whole run. -/
theorem c10_counterexample :
    prune [JValue.obj [("end_date", JValue.num 5)]] dayT = .error .typeError ∧
    runMain [JValue.obj [("end_date", JValue.num 5)]] baseUrl [] dayT =
      .error .typeError :=
  ⟨rfl, rfl⟩

/-- Claim C10, amended: pruning removes an entry only when it is a dict
whose `end_date` is a truthy string parsing to a date strictly before
today.  Entries whose computed end date is `None` — non-dicts, dicts
without `end_date`, falsy `end_date`, or a string `end_date` that
`datetime.fromisoformat` rejects (the caught `ValueError`; note the parser
accepts the full extended grammar modelled by `fromIso`, date-times and
week dates included, not just `YYYY-MM-DD`) — are always retained and
written back to storage.  A truthy non-string `end_date` raises
`TypeError` instead. -/
theorem c10_retention :
    (∀ (st : List JValue) (t : Date) (item : JValue) (cleaned : List JValue),
      item ∈ st → itemEndDate item = .ok none → prune st t = .ok cleaned →
      item ∈ cleaned) ∧
    (∀ (st : List JValue) (u : String) (cs : List Container) (t : Date)
        (item : JValue) (res : RunResult),
      item ∈ st → itemEndDate item = .ok none → runMain st u cs t = .ok res →
      item ∈ res.saved) ∧
    (∀ (st : List JValue) (t : Date) (item : JValue) (cleaned : List JValue),
      item ∈ st → prune st t = .ok cleaned → item ∉ cleaned →
      ∃ d, itemEndDate item = .ok (some d) ∧ Date.blt d t = true) ∧
    (∀ (fs : List (String × JValue)) (v : JValue) (t : Date),
      jGet fs "end_date" = some v → jTruthy v = true → (∀ s, v ≠ JValue.str s) →
      pruneKeep (JValue.obj fs) t = .error .typeError) := by
  have hkeep : ∀ (item : JValue) (t : Date), itemEndDate item = .ok none →
      pruneKeep item t = .ok true := by
    intro item t hed
    unfold pruneKeep
    rw [hed]
  refine ⟨?_, ?_, ?_, ?_⟩
  · intro st t item cleaned hmem hed hp
    exact prune_mem_of_keep st t cleaned item hp hmem (hkeep item t hed)
  · intro st u cs t item res hmem hed hr
    cases hp : prune st t with
    | error e => unfold runMain at hr; rw [hp] at hr; exact Except.noConfusion hr
    | ok cleaned =>
      rw [runMain_eq st u cs t cleaned hp, Except.ok.injEq] at hr
      subst hr
      exact List.mem_append_left _
        (prune_mem_of_keep st t cleaned item hp hmem (hkeep item t hed))
  · intro st t item cleaned hmem hp hnot
    rcases prune_ok_forall st t cleaned hp item hmem with ⟨b, hb⟩
    cases b with
    | true => exact absurd (prune_mem_of_keep st t cleaned item hp hmem hb) hnot
    | false =>
      unfold pruneKeep at hb
      cases hed : itemEndDate item with
      | error e => rw [hed] at hb; exact Except.noConfusion hb
      | ok od =>
        cases od with
        | none =>
          rw [hed] at hb
          simp at hb
        | some d =>
          rw [hed, Except.ok.injEq] at hb
          refine ⟨d, rfl, ?_⟩
          simp [Date.blt, hb]
  · intro fs v t hg ht hns
    unfold pruneKeep itemEndDate
    dsimp only
    rw [hg]
    dsimp only
    rw [if_pos ht]
    cases v with
    | str s => exact absurd rfl (hns s)
    | null => rfl
    | bool b => rfl
    | num q => rfl
    | arr xs => rfl
    | obj fs2 => rfl

/-- Witness for the amended C10: a non-dict entry is retained (applied to
a singleton state), a numeric `end_date` raises, an expired entry in the
extended ISO form `fromisoformat` also accepts (date-time, not just
`YYYY-MM-DD`) is removed, and an entry whose `end_date` string the parser
rejects is retained. -/
theorem c10_witness :
    JValue.str "x" ∈ [JValue.str "x"] ∧
    pruneKeep (JValue.obj [("end_date", JValue.num 5)]) dayT = .error .typeError ∧
    prune [JValue.obj [("end_date", JValue.str "2000-01-01T00:00:00")]] dayT = .ok [] ∧
    prune [JValue.obj [("end_date", JValue.str "not-a-date")]] dayT =
      .ok [JValue.obj [("end_date", JValue.str "not-a-date")]] := by
  refine ⟨?_, ?_, rfl, rfl⟩
  · exact c10_retention.1 [JValue.str "x"] dayT (JValue.str "x") [JValue.str "x"]
      (by simp) rfl rfl
  · exact c10_retention.2.2.2 [("end_date", JValue.num 5)] (JValue.num 5) dayT rfl
      (by decide) (fun s hs => JValue.noConfusion hs)

theorem pruneKeep_iso (d t : Date) (hv : dateValid d = true) :
    pruneKeep (JValue.obj [("end_date", JValue.str (dateToIso d))]) t =
      .ok (Date.ble t d) := by
  have h1 : itemEndDate (JValue.obj [("end_date", JValue.str (dateToIso d))]) =
      .ok (some d) := by
    unfold itemEndDate
    simp only [jGet, beq_self_eq_true, if_true, jTruthy_iso, fromIso_dateToIso d hv]
  unfold pruneKeep
  rw [h1]

theorem existingLinks_mem_build (rs : List Record) (r : Record) (h : r ∈ rs) :
    some (JValue.str r.link) ∈
      existingLinks (rs.map (fun x => JValue.obj (build_persisted_item x))) := by
  unfold existingLinks
  apply List.mem_filterMap.mpr
  refine ⟨JValue.obj (build_persisted_item r), List.mem_map_of_mem _ h, ?_⟩
  dsimp only
  rw [jGet_build_link]

/-- Claim C6 (confirmed): a deadline equal to today passes the
extractor's freshness filter (the record is emitted with that end date)
and survives pruning, while a deadline one day in the past is dropped by
the extractor and removed by pruning; and every record extraction emits
has `end_date >= today`. -/
theorem c6_boundary (t : Date) (hv : dateValid t = true) (hmin : t ≠ ⟨1, 1, 1⟩) :
    (∀ (c : Container) (u : String) (a : String × String)
        (rest : List (String × String)),
      c.anchors = a :: rest → a.2 ≠ "" → parse_date c.text = some t →
      ∃ r, processContainer c u false t = some r ∧ r.end_date = t) ∧
    (∀ (c : Container) (u : String), parse_date c.text = some (prevDay t) →
      processContainer c u false t = none) ∧
    prune [JValue.obj [("end_date", JValue.str (dateToIso t))]] t =
      .ok [JValue.obj [("end_date", JValue.str (dateToIso t))]] ∧
    prune [JValue.obj [("end_date", JValue.str (dateToIso (prevDay t)))]] t = .ok [] ∧
    (∀ (cs : List Container) (u : String) (f : Bool) (r : Record),
      r ∈ extract_contests cs u f t → Date.ble t r.end_date = true) := by
  refine ⟨?_, ?_, ?_, ?_, ?_⟩
  · intro c u a rest hca hne hpd
    refine ⟨Record.mk a.2 (pyUrljoin u a.1) (find_official_link c) t
      (parse_vacancies c.text) (parse_salary c.text).1 (parse_salary c.text).2
      c.text, ?_, rfl⟩
    unfold processContainer
    rw [hca]
    dsimp only [List.head?]
    rw [if_neg (by simpa using hne), if_neg (by simp), hpd]
    dsimp only
    rw [if_neg (by simp [Date.blt_self])]
  · intro c u hpd
    unfold processContainer
    cases hh : c.anchors.head? with
    | none => rfl
    | some a =>
      dsimp only
      by_cases he : (a.2 == "") = true
      · rw [if_pos he]
      · rw [if_neg he, if_neg (by simp), hpd]
        dsimp only
        rw [if_pos (prevDay_blt t hv hmin)]
  · have hk := pruneKeep_iso t t hv
    rw [Date.ble_refl] at hk
    simp [prune, hk]
  · have hk := pruneKeep_iso (prevDay t) t (prevDay_valid t hv hmin)
    rw [Date.ble_eq_false_of_blt _ _ (prevDay_blt t hv hmin)] at hk
    simp [prune, hk]
  · intro cs u f r hr
    exact (extract_fresh cs u f t r hr).1

/-- Witness for C6 at today = 2099-03-01 (a month boundary: the previous
day is 2099-02-28). -/
theorem c6_witness :
    (∃ r, processContainer cY "u" false ⟨2099, 3, 1⟩ = some r ∧
      r.end_date = ⟨2099, 3, 1⟩) ∧
    processContainer cZ "u" false ⟨2099, 3, 1⟩ = none ∧
    prune [JValue.obj [("end_date", JValue.str (dateToIso ⟨2099, 3, 1⟩))]]
        ⟨2099, 3, 1⟩ =
      .ok [JValue.obj [("end_date", JValue.str (dateToIso ⟨2099, 3, 1⟩))]] ∧
    prune [JValue.obj [("end_date", JValue.str (dateToIso (prevDay ⟨2099, 3, 1⟩)))]]
        ⟨2099, 3, 1⟩ = .ok [] ∧
    Date.ble ⟨2099, 3, 1⟩ recY.end_date = true := by
  have h := c6_boundary ⟨2099, 3, 1⟩ (by decide) (by decide)
  exact ⟨h.1 cY "u" ("https://x.example/y", "Concurso Y") [] rfl (by decide) (by decide),
    h.2.1 cZ "u" (by decide),
    h.2.2.1, h.2.2.2.1,
    h.2.2.2.2 [cY] "u" false recY (by decide)⟩

/-- Claim C1 (corrected), counterexample: the deduplication identity is
the link, not (normalized title, endDate).  The persisted state holds a
record with title "A" and end date 2099-12-31 under link
`https://x.example/1`; the same contest under link `https://x.example/2`
(same normalized title, same end date) is classified as new: it is
appended to storage and notified. -/
theorem c1_counterexample :
    runMain stateA baseUrl [containerA2] dayT =
      .ok { saved := stateA ++ [JValue.obj (build_persisted_item recA2)]
            notified := [recA2]
            scraped := [recA2] } ∧
    specNormalizedTitle recA2.title = specNormalizedTitle "A" ∧
    recA2.end_date = ⟨2099, 12, 31⟩ ∧
    fromIso "2099-12-31" = some recA2.end_date ∧
    recA2.link ≠ "https://x.example/1" :=
  ⟨rfl, rfl, rfl, by decide, by decide⟩

/-- Claim C1, amended: deduplication is link-based.  A scraped record
whose link is already among the links of the pruned persisted set is
classified as already seen: it is not notified; and the saved state is
exactly the pruned prior state followed by the persisted forms of the
notified records. -/
theorem c1_link_identity (st : List JValue) (u : String) (cs : List Container)
    (t : Date) (cleaned : List JValue) (res : RunResult)
    (hp : prune st t = .ok cleaned) (hr : runMain st u cs t = .ok res) :
    (∀ r ∈ res.scraped,
      (existingLinks cleaned).any (fun o => isLinkVal o r.link) = true →
      r ∉ res.notified) ∧
    res.saved = cleaned ++ res.notified.map (fun r => JValue.obj (build_persisted_item r)) := by
  rw [runMain_eq st u cs t cleaned hp, Except.ok.injEq] at hr
  subst hr
  constructor
  · intro r hrs hseen hmem
    have hfil := List.mem_filter.mp hmem
    rw [hseen] at hfil
    simp at hfil
  · rfl

/-- Witness for the amended C1: the scraped record's link is already
persisted (under a different title), so it is not notified. -/
theorem c1_witness :
    recA2 ∉ (⟨stateB, [], [recA2]⟩ : RunResult).notified :=
  (c1_link_identity stateB baseUrl [containerA2] dayT stateB ⟨stateB, [], [recA2]⟩
      rfl rfl).1 recA2 (by simp) (by decide)

/-- Claim C2 (corrected), counterexample: the pipeline performs no change
detection.  Two consecutive polls over the byte-identical page still run
extraction on the second poll (`scraped` is nonempty), although the
second poll notifies nothing. -/
theorem c2_counterexample :
    runMain [] baseUrl [containerA2] dayT =
      .ok { saved := [JValue.obj (build_persisted_item recA2)]
            notified := [recA2]
            scraped := [recA2] } ∧
    runMain [JValue.obj (build_persisted_item recA2)] baseUrl [containerA2] dayT =
      .ok { saved := [JValue.obj (build_persisted_item recA2)]
            notified := []
            scraped := [recA2] } ∧
    ([recA2] : List Record) ≠ [] :=
  ⟨rfl, rfl, by decide⟩

/-- Claim C2, amended: there is no digest short-circuit — extraction runs
on every poll, and on identical input produces identical extraction work —
but a second poll over the same page on the same day notifies nothing,
because every extracted link is already persisted. -/
theorem c2_second_poll_silent (st : List JValue) (u : String)
    (cs : List Container) (t : Date) (r1 r2 : RunResult)
    (h1 : runMain st u cs t = .ok r1) (h2 : runMain r1.saved u cs t = .ok r2) :
    r2.notified = [] ∧ r2.scraped = r1.scraped := by
  cases hp1 : prune st t with
  | error e =>
    unfold runMain at h1
    rw [hp1] at h1
    exact Except.noConfusion h1
  | ok c1 =>
    rw [runMain_eq st u cs t c1 hp1, Except.ok.injEq] at h1
    subst h1
    dsimp only at h2
    have hfresh : ∀ r ∈ (extract_contests cs u (filterSpOf u) t).filter
        (fun r => !((existingLinks c1).any (fun o => isLinkVal o r.link))),
        dateValid r.end_date = true ∧ Date.ble t r.end_date = true := by
      intro r hr
      have hrS := (List.mem_filter.mp hr).1
      have hf := extract_fresh cs u (filterSpOf u) t r hrS
      exact ⟨hf.2, hf.1⟩
    have hprune2 : prune (c1 ++ ((extract_contests cs u (filterSpOf u) t).filter
        (fun r => !((existingLinks c1).any (fun o => isLinkVal o r.link)))).map
          (fun r => JValue.obj (build_persisted_item r))) t =
        .ok (c1 ++ ((extract_contests cs u (filterSpOf u) t).filter
        (fun r => !((existingLinks c1).any (fun o => isLinkVal o r.link)))).map
          (fun r => JValue.obj (build_persisted_item r))) :=
      prune_append _ _ t _ _ (prune_idem st t c1 hp1)
        (prune_build_list _ t hfresh)
    rw [runMain_eq _ u cs t _ hprune2, Except.ok.injEq] at h2
    subst h2
    refine ⟨?_, rfl⟩
    apply List.filter_eq_nil_iff.mpr
    intro r hrS
    rw [Bool.not_eq_true, Bool.not_eq_false']
    rw [List.any_eq_true]
    rw [existingLinks_append]
    by_cases hseen : (existingLinks c1).any (fun o => isLinkVal o r.link) = true
    · rcases List.any_eq_true.mp hseen with ⟨o, ho, hvo⟩
      exact ⟨o, List.mem_append_left _ ho, hvo⟩
    · have hrf : r ∈ (extract_contests cs u (filterSpOf u) t).filter
          (fun r => !((existingLinks c1).any (fun o => isLinkVal o r.link))) :=
        List.mem_filter.mpr ⟨hrS, by simp [hseen]⟩
      refine ⟨some (JValue.str r.link), List.mem_append_right _ ?_, ?_⟩
      · exact existingLinks_mem_build _ r hrf
      · simp [isLinkVal]

/-- Witness for the amended C2: two concrete identical polls; the second
notifies nothing and extracts the same record. -/
theorem c2_witness :
    (⟨[JValue.obj (build_persisted_item recA2)], [], [recA2]⟩ : RunResult).notified = [] ∧
    (⟨[JValue.obj (build_persisted_item recA2)], [], [recA2]⟩ : RunResult).scraped =
      (⟨[JValue.obj (build_persisted_item recA2)], [recA2], [recA2]⟩ : RunResult).scraped :=
  c2_second_poll_silent [] baseUrl [containerA2] dayT
    ⟨[JValue.obj (build_persisted_item recA2)], [recA2], [recA2]⟩
    ⟨[JValue.obj (build_persisted_item recA2)], [], [recA2]⟩ rfl rfl
